import Mathlib

/-!
# A verification model of the toy payments engine

This file embeds the ledger state machine of the payments engine
(types from `src/lib/types.rs`, transaction rules from
`src/lib/transactions.rs`) as executable Lean definitions and proves
properties of the transaction rules and of the fold that builds the
final ledger.

Modelling choices:
* `MonetaryAmount` (a `rust_decimal::Decimal`) is modelled as `Int`.
  A `Decimal` is a scaled integer (an integer multiple of a fixed power
  of ten), and the engine only adds, subtracts and compares amounts —
  all exact operations that correspond exactly to the same operations
  on the underlying integers.
* `im::HashMap` is modelled as an association list with
  insert-or-replace update; `im::HashSet` as a list with
  insert-if-absent update.  Both have decidable equality so that every
  model state can be evaluated concretely.
* A Rust panic (the `Only withdrawals can be backfilled` branch and the
  `unwrap` in `resolve_prev_rejected`) is modelled by `Option`:
  `none` is a crash, `some` a normal result.
-/

namespace ToyPayments

abbrev ClientId := Nat

abbrev TransactionId := Nat

abbrev MonetaryAmount := Int

/-- Association-list lookup, modelling `im::HashMap::get`. -/
def mapGet {κ α : Type} [DecidableEq κ] : List (κ × α) → κ → Option α
  | [], _ => none
  | p :: ps, k => if p.1 = k then some p.2 else mapGet ps k

/-- Association-list insert-or-replace, modelling `im::HashMap::update`. -/
def mapUpdate {κ α : Type} [DecidableEq κ] : List (κ × α) → κ → α → List (κ × α)
  | [], k, v => [(k, v)]
  | p :: ps, k, v => if p.1 = k then (k, v) :: ps else p :: mapUpdate ps k v

/-- Set insert, modelling `im::HashSet::update`. -/
def setUpdate (s : List TransactionId) (tx : TransactionId) : List TransactionId :=
  if tx ∈ s then s else tx :: s

/-- Set removal, modelling `im::HashSet::without`. -/
def setWithout (s : List TransactionId) (tx : TransactionId) : List TransactionId :=
  s.erase tx

/-- `AccountActivity` from `types.rs`: a completed, recorded money movement. -/
inductive AccountActivity : Type where
  | deposit (client : ClientId) (tx : TransactionId) (amount : MonetaryAmount)
  | withdrawal (client : ClientId) (tx : TransactionId) (amount : MonetaryAmount)
  deriving DecidableEq, Repr

/-- `RejectedActivity` from `types.rs`: a rejected withdrawal together with a
snapshot of the transaction ids under dispute at the moment of rejection. -/
structure RejectedActivity : Type where
  activity : AccountActivity
  disputed_transaction_snapshot : List TransactionId
  deriving DecidableEq, Repr

/-- `TransactionHistory` from `types.rs`. -/
structure TransactionHistory : Type where
  account_activity : List (TransactionId × AccountActivity) := []
  disputed_txs : List TransactionId := []
  rejected_txs : List RejectedActivity := []
  deriving DecidableEq, Repr

/-- `ClientState` from `types.rs`.  The default state is all-zero, unlocked,
with empty history. -/
structure ClientState : Type where
  available : MonetaryAmount := 0
  held : MonetaryAmount := 0
  total : MonetaryAmount := 0
  is_locked : Bool := false
  history : TransactionHistory := {}
  deriving DecidableEq, Repr

/-- `DisputeManagement` from `types.rs`. -/
inductive DisputeManagement : Type where
  | dispute (client : ClientId) (tx : TransactionId)
  | resolve (client : ClientId) (tx : TransactionId)
  | chargeback (client : ClientId) (tx : TransactionId)
  deriving DecidableEq, Repr

/-- `Transaction` from `types.rs`. -/
inductive Transaction : Type where
  | activity (a : AccountActivity)
  | dispute (d : DisputeManagement)
  deriving DecidableEq, Repr

/-- `update_deposit` from `transactions.rs`. -/
def update_deposit (client_state : ClientState) (activity : AccountActivity)
    (tx_id : TransactionId) (amount : MonetaryAmount) : ClientState :=
  if client_state.is_locked then client_state
  else
    { client_state with
      available := client_state.available + amount
      total := client_state.total + amount
      history := { client_state.history with
        account_activity := mapUpdate client_state.history.account_activity tx_id activity } }

/-- `update_withdrawal` from `transactions.rs`. -/
def update_withdrawal (client_state : ClientState) (activity : AccountActivity)
    (tx_id : TransactionId) (amount : MonetaryAmount) : ClientState :=
  let no_possible_withdrawal_backfill :=
    (client_state.available < amount ∧ client_state.history.disputed_txs = []) ∨
      client_state.total < amount
  if client_state.is_locked ∨ no_possible_withdrawal_backfill then client_state
  else
    let potential_backfill :=
      client_state.available < amount ∧ client_state.history.disputed_txs ≠ []
    if potential_backfill then
      let rejected_activity : RejectedActivity :=
        { activity := activity
          disputed_transaction_snapshot := client_state.history.disputed_txs }
      { client_state with
        history := { client_state.history with
          rejected_txs := client_state.history.rejected_txs ++ [rejected_activity] } }
    else
      { client_state with
        total := client_state.total - amount
        available := client_state.available - amount
        history := { client_state.history with
          account_activity := mapUpdate client_state.history.account_activity tx_id activity } }

/-- `update_dispute` from `transactions.rs`.  Note that (as in the source) the
transaction id inserted into `disputed_txs` is the id stored inside the
recorded deposit, which shadows the function argument. -/
def update_dispute (client_state : ClientState) (tx_id : TransactionId) :
    Option ClientState :=
  let is_already_disputed := tx_id ∈ client_state.history.disputed_txs
  if client_state.is_locked ∨ is_already_disputed then none
  else
    match mapGet client_state.history.account_activity tx_id with
    | some (AccountActivity.deposit _ inner_tx amount) =>
        some { client_state with
          available := client_state.available - amount
          held := client_state.held + amount
          history := { client_state.history with
            disputed_txs := setUpdate client_state.history.disputed_txs inner_tx } }
    | _ => none

/-- One iteration of the fold inside `resolve_prev_rejected` from
`transactions.rs`.  `none` models a panic: the source evaluates
`withdraw_amount` (panicking on a non-withdrawal rejected activity) before any
eligibility test, and `unwrap`s the index of the activity-equal entry. -/
def backfill_step (resolved_tx : TransactionId) (acc : ClientState)
    (rejected_tx : RejectedActivity) : Option ClientState :=
  let rejected_tx_occured_before_resolved_tx :=
    resolved_tx ∈ rejected_tx.disputed_transaction_snapshot
  match rejected_tx.activity with
  | AccountActivity.deposit _ _ _ => none
  | AccountActivity.withdrawal _ _ withdraw_amount =>
    let withdraw_within_avail := withdraw_amount ≤ acc.available
    if rejected_tx_occured_before_resolved_tx ∧ withdraw_within_avail then
      match acc.history.rejected_txs.findIdx?
          (fun x => x.activity == rejected_tx.activity) with
      | some idx =>
          some { acc with
            available := acc.available - withdraw_amount
            total := acc.total - withdraw_amount
            history := { acc.history with
              rejected_txs := acc.history.rejected_txs.eraseIdx idx } }
      | none => none
    else some acc

/-- `resolve_prev_rejected` from `transactions.rs`: a single left-to-right
fold over the client's rejected transactions. -/
def resolve_prev_rejected (resolved_tx : TransactionId)
    (client_state : ClientState) : Option ClientState :=
  client_state.history.rejected_txs.foldl
    (fun acc rejected_tx => acc.bind (fun a => backfill_step resolved_tx a rejected_tx))
    (some client_state)

/-- `update_resolve` from `transactions.rs`.  The outer `Option` models a
panic inside `resolve_prev_rejected`; the inner `Option` is the source's
return value (`none` meaning the resolve is ignored).  As in the source, the
id removed from `disputed_txs` and passed to `resolve_prev_rejected` is the id
stored inside the recorded deposit (a shadowing binding). -/
def update_resolve (client_state : ClientState) (tx_id : TransactionId) :
    Option (Option ClientState) :=
  let is_disputed := tx_id ∈ client_state.history.disputed_txs
  if client_state.is_locked ∨ ¬ is_disputed then some none
  else
    match mapGet client_state.history.account_activity tx_id with
    | some (AccountActivity.deposit _ inner_tx amount) =>
        let new_state :=
          { client_state with
            available := client_state.available + amount
            held := client_state.held - amount
            history := { client_state.history with
              disputed_txs := setWithout client_state.history.disputed_txs inner_tx } }
        (resolve_prev_rejected inner_tx new_state).map some
    | _ => some none

/-- `update_chargeback` from `transactions.rs`. -/
def update_chargeback (client_state : ClientState) (tx_id : TransactionId) :
    Option ClientState :=
  let is_disputed := tx_id ∈ client_state.history.disputed_txs
  if client_state.is_locked ∨ ¬ is_disputed then none
  else
    match mapGet client_state.history.account_activity tx_id with
    | some (AccountActivity.deposit _ _ amount) =>
        some { client_state with
          total := client_state.total - amount
          held := client_state.held - amount
          is_locked := true }
    | _ => none

/-- The accumulating ledger: `im::HashMap<ClientId, ClientState>`. -/
abbrev LedgerMap := List (ClientId × ClientState)

/-- `get_or_default` from `utils.rs`. -/
def get_or_default (ledger : LedgerMap) (c : ClientId) : ClientState :=
  (mapGet ledger c).getD {}

/-- `resolve_transaction` from `transactions.rs`.  `none` models a panic. -/
def resolve_transaction (transaction : Transaction) (ledger : LedgerMap) :
    Option LedgerMap :=
  match transaction with
  | Transaction.activity (AccountActivity.deposit c_id tx_id amount) =>
      let client_state := get_or_default ledger c_id
      let new_state :=
        update_deposit client_state (AccountActivity.deposit c_id tx_id amount) tx_id amount
      some (mapUpdate ledger c_id new_state)
  | Transaction.activity (AccountActivity.withdrawal c_id tx_id amount) =>
      let client_state := get_or_default ledger c_id
      let new_state :=
        update_withdrawal client_state (AccountActivity.withdrawal c_id tx_id amount) tx_id amount
      some (mapUpdate ledger c_id new_state)
  | Transaction.dispute (DisputeManagement.dispute c_id tx_id) =>
      let client_state := get_or_default ledger c_id
      match update_dispute client_state tx_id with
      | some state => some (mapUpdate ledger c_id state)
      | none => some ledger
  | Transaction.dispute (DisputeManagement.resolve c_id tx_id) =>
      let client_state := get_or_default ledger c_id
      match update_resolve client_state tx_id with
      | none => none
      | some none => some ledger
      | some (some state) => some (mapUpdate ledger c_id state)
  | Transaction.dispute (DisputeManagement.chargeback c_id tx_id) =>
      let client_state := get_or_default ledger c_id
      match update_chargeback client_state tx_id with
      | some state => some (mapUpdate ledger c_id state)
      | none => some ledger

/-- `ClientLedger` from `types.rs`: one public row of the final ledger. -/
structure ClientLedger : Type where
  id : ClientId
  available : MonetaryAmount
  held : MonetaryAmount
  total : MonetaryAmount
  is_locked : Bool
  deriving DecidableEq, Repr

/-- `ClientLedger::from_state` from `types.rs`. -/
def ClientLedger.from_state (id : ClientId) (state : ClientState) : ClientLedger :=
  { id := id
    available := state.available
    held := state.held
    total := state.total
    is_locked := state.is_locked }

/-- `Ledger` from `types.rs`: the externally visible rows. -/
structure Ledger : Type where
  rows : List ClientLedger
  deriving DecidableEq, Repr

/-- The fold inside `create_ledger_with_init` from `transactions.rs`. -/
def apply_transactions (transactions : List Transaction) (init_ledger : LedgerMap) :
    Option LedgerMap :=
  transactions.foldl (fun acc tx => acc.bind (resolve_transaction tx)) (some init_ledger)

/-- `create_ledger_with_init` from `transactions.rs`. -/
def create_ledger_with_init (init_ledger : LedgerMap) (transactions : List Transaction) :
    Option Ledger :=
  (apply_transactions transactions init_ledger).map
    (fun m => Ledger.mk (m.map (fun p => ClientLedger.from_state p.1 p.2)))

/-- `create_ledger` from `transactions.rs`: the public entry point. -/
def create_ledger (transactions : List Transaction) : Option Ledger :=
  create_ledger_with_init [] transactions

/-- The per-client balance invariant of the specification. -/
def balance_invariant (s : ClientState) : Prop :=
  s.total = s.available + s.held

instance (s : ClientState) : Decidable (balance_invariant s) :=
  inferInstanceAs (Decidable (s.total = s.available + s.held))

/-- Whether an activity is a withdrawal. -/
def AccountActivity.isWithdrawal : AccountActivity → Bool
  | AccountActivity.withdrawal _ _ _ => true
  | AccountActivity.deposit _ _ _ => false

/-- The client id addressed by an activity. -/
def activity_client : AccountActivity → ClientId
  | AccountActivity.deposit c _ _ => c
  | AccountActivity.withdrawal c _ _ => c

/-- The client id addressed by a transaction. -/
def transaction_client : Transaction → ClientId
  | Transaction.activity a => activity_client a
  | Transaction.dispute (DisputeManagement.dispute c _) => c
  | Transaction.dispute (DisputeManagement.resolve c _) => c
  | Transaction.dispute (DisputeManagement.chargeback c _) => c

/-- The clients addressed by the deposit and withdrawal transactions of a
sequence. -/
def activity_clients (transactions : List Transaction) : List ClientId :=
  transactions.filterMap (fun t =>
    match t with
    | Transaction.activity a => some (activity_client a)
    | Transaction.dispute _ => none)

/-- The state-level effect of a dispute transaction: `resolve_transaction`
keeps the old state when `update_dispute` returns `none`. -/
def apply_dispute (s : ClientState) (tx_id : TransactionId) : ClientState :=
  (update_dispute s tx_id).getD s

/-- Removal of the first entry whose activity equals `a`, as described by the
specification of the backfill pass ("match by activity value; the first
structurally-equal entry is removed"). -/
def remove_first_matching (a : AccountActivity) :
    List RejectedActivity → List RejectedActivity
  | [] => []
  | r :: rs => if r.activity = a then rs else r :: remove_first_matching a rs

/-- One step of the backfill pass as the specification describes it: an entry
whose snapshot contains the resolved id and whose withdrawal amount fits in
the accumulator's available funds is applied and removed; every other entry
leaves the accumulator unchanged. -/
def backfill_spec_step (resolved_tx : TransactionId) (acc : ClientState)
    (r : RejectedActivity) : ClientState :=
  match r.activity with
  | AccountActivity.withdrawal _ _ amount =>
    if resolved_tx ∈ r.disputed_transaction_snapshot ∧ amount ≤ acc.available then
      { acc with
        available := acc.available - amount
        total := acc.total - amount
        history := { acc.history with
          rejected_txs := remove_first_matching r.activity acc.history.rejected_txs } }
    else acc
  | AccountActivity.deposit _ _ _ => acc

/-- Number of rejected entries carrying a given activity value. -/
def countActivity (l : List RejectedActivity) (a : AccountActivity) : Nat :=
  (l.map RejectedActivity.activity).count a

/-- The keys of an association list. -/
def mapKeys {κ α : Type} (m : List (κ × α)) : List κ :=
  m.map Prod.fst

/-- Every rejected entry of the state holds a withdrawal activity. -/
def rejected_all_withdrawals (s : ClientState) : Prop :=
  ∀ r ∈ s.history.rejected_txs, r.activity.isWithdrawal = true

instance (s : ClientState) : Decidable (rejected_all_withdrawals s) :=
  inferInstanceAs
    (Decidable (∀ r ∈ s.history.rejected_txs, r.activity.isWithdrawal = true))

/-! ## Unfolding lemmas

The transaction rules are written with the `let`-bound condition names of the
source; these lemmas restate them with the bindings inlined. -/

lemma update_withdrawal_eq (s : ClientState) (a : AccountActivity)
    (t : TransactionId) (m : MonetaryAmount) :
    update_withdrawal s a t m =
      if s.is_locked = true ∨
          ((s.available < m ∧ s.history.disputed_txs = []) ∨ s.total < m) then s
      else if s.available < m ∧ s.history.disputed_txs ≠ [] then
        { s with history := { s.history with
            rejected_txs := s.history.rejected_txs ++
              [{ activity := a
                 disputed_transaction_snapshot := s.history.disputed_txs }] } }
      else
        { s with
          total := s.total - m
          available := s.available - m
          history := { s.history with
            account_activity := mapUpdate s.history.account_activity t a } } := rfl

lemma update_dispute_eq (s : ClientState) (t : TransactionId) :
    update_dispute s t =
      if s.is_locked = true ∨ t ∈ s.history.disputed_txs then none
      else
        match mapGet s.history.account_activity t with
        | some (AccountActivity.deposit _ inner_tx amount) =>
            some { s with
              available := s.available - amount
              held := s.held + amount
              history := { s.history with
                disputed_txs := setUpdate s.history.disputed_txs inner_tx } }
        | _ => none := rfl

lemma backfill_step_eq (resolved_tx : TransactionId) (acc : ClientState)
    (r : RejectedActivity) :
    backfill_step resolved_tx acc r =
      match r.activity with
      | AccountActivity.deposit _ _ _ => none
      | AccountActivity.withdrawal _ _ withdraw_amount =>
        if resolved_tx ∈ r.disputed_transaction_snapshot ∧
            withdraw_amount ≤ acc.available then
          match acc.history.rejected_txs.findIdx?
              (fun x => x.activity == r.activity) with
          | some idx =>
              some { acc with
                available := acc.available - withdraw_amount
                total := acc.total - withdraw_amount
                history := { acc.history with
                  rejected_txs := acc.history.rejected_txs.eraseIdx idx } }
          | none => none
        else some acc := by
  rcases r with ⟨act, snap⟩
  cases act <;> rfl

lemma update_resolve_eq (s : ClientState) (t : TransactionId) :
    update_resolve s t =
      if s.is_locked = true ∨ ¬ t ∈ s.history.disputed_txs then some none
      else
        match mapGet s.history.account_activity t with
        | some (AccountActivity.deposit _ inner_tx amount) =>
            (resolve_prev_rejected inner_tx
              { s with
                available := s.available + amount
                held := s.held - amount
                history := { s.history with
                  disputed_txs := setWithout s.history.disputed_txs inner_tx } }).map some
        | _ => some none := rfl

lemma update_chargeback_eq (s : ClientState) (t : TransactionId) :
    update_chargeback s t =
      if s.is_locked = true ∨ ¬ t ∈ s.history.disputed_txs then none
      else
        match mapGet s.history.account_activity t with
        | some (AccountActivity.deposit _ _ amount) =>
            some { s with
              total := s.total - amount
              held := s.held - amount
              is_locked := true }
        | _ => none := rfl

/-! ## Generic lemmas about option-valued folds -/

lemma foldl_bind_none {α β : Type} (g : α → β → Option α) (l : List β) :
    l.foldl (fun acc b => acc.bind (fun a => g a b)) none = none := by
  induction l with
  | nil => rfl
  | cons x xs ih => simpa using ih

lemma foldl_bind_preserves {α β : Type} (P : α → Prop) (g : α → β → Option α)
    (hg : ∀ a b a', g a b = some a' → P a → P a') :
    ∀ (l : List β) (a₀ a₁ : α),
      l.foldl (fun acc b => acc.bind (fun a => g a b)) (some a₀) = some a₁ →
      P a₀ → P a₁ := by
  intro l
  induction l with
  | nil =>
    intro a₀ a₁ h hp
    simp only [List.foldl_nil, Option.some.injEq] at h
    exact h ▸ hp
  | cons x xs ih =>
    intro a₀ a₁ h hp
    rw [List.foldl_cons] at h
    simp only [Option.some_bind] at h
    cases hx : g a₀ x with
    | none =>
      rw [hx, foldl_bind_none] at h
      exact absurd h (by simp)
    | some a' =>
      rw [hx] at h
      exact ih a' a₁ h (hg a₀ x a' hx hp)

lemma foldl_bind_id {α β : Type} (g : α → β → Option α) :
    ∀ (l : List β) (a₀ : α), (∀ b ∈ l, ∀ a, g a b = some a) →
      l.foldl (fun acc b => acc.bind (fun a => g a b)) (some a₀) = some a₀ := by
  intro l
  induction l with
  | nil => intro a₀ _; rfl
  | cons x xs ih =>
    intro a₀ h
    rw [List.foldl_cons]
    simp only [Option.some_bind]
    rw [h x (List.mem_cons_self x xs) a₀]
    exact ih a₀ (fun b hb a => h b (List.mem_cons_of_mem x hb) a)

-- Scenario sanity checks (spec section 8).
example :
    create_ledger
      [Transaction.activity (AccountActivity.deposit 1 1 5),
       Transaction.activity (AccountActivity.withdrawal 1 2 3)] =
    some (Ledger.mk [{ id := 1, available := 2, held := 0, total := 2, is_locked := false }]) := by
  decide

example :
    create_ledger
      [Transaction.activity (AccountActivity.deposit 1 1 10),
       Transaction.activity (AccountActivity.withdrawal 1 2 20)] =
    some (Ledger.mk [{ id := 1, available := 10, held := 0, total := 10, is_locked := false }]) := by
  decide

example :
    create_ledger
      [Transaction.activity (AccountActivity.deposit 1 1 5),
       Transaction.dispute (DisputeManagement.dispute 1 1),
       Transaction.dispute (DisputeManagement.chargeback 1 1)] =
    some (Ledger.mk [{ id := 1, available := 0, held := 0, total := 0, is_locked := true }]) := by
  decide

/-! ## Preservation of the balance invariant -/

lemma backfill_step_invariant (tx : TransactionId) (a : ClientState)
    (r : RejectedActivity) (a' : ClientState)
    (h : backfill_step tx a r = some a') (hinv : balance_invariant a) :
    balance_invariant a' := by
  rw [backfill_step_eq] at h
  rcases r with ⟨act, snap⟩
  cases act with
  | deposit c t m => exact absurd h (by simp)
  | withdrawal c t m =>
    dsimp only at h
    split at h
    · split at h
      · rw [Option.some.injEq] at h
        subst h
        unfold balance_invariant at hinv ⊢
        dsimp only
        linarith
      · exact absurd h (by simp)
    · rw [Option.some.injEq] at h
      exact h ▸ hinv

lemma resolve_prev_rejected_invariant (tx : TransactionId) (s s' : ClientState)
    (h : resolve_prev_rejected tx s = some s') (hinv : balance_invariant s) :
    balance_invariant s' :=
  foldl_bind_preserves balance_invariant (fun a r => backfill_step tx a r)
    (fun a r a' hh => backfill_step_invariant tx a r a' hh)
    s.history.rejected_txs s s' h hinv

lemma update_deposit_invariant (s : ClientState) (a : AccountActivity)
    (t : TransactionId) (m : MonetaryAmount) (hinv : balance_invariant s) :
    balance_invariant (update_deposit s a t m) := by
  unfold update_deposit
  split
  · exact hinv
  · unfold balance_invariant at hinv ⊢
    dsimp only
    linarith

lemma update_withdrawal_invariant (s : ClientState) (a : AccountActivity)
    (t : TransactionId) (m : MonetaryAmount) (hinv : balance_invariant s) :
    balance_invariant (update_withdrawal s a t m) := by
  rw [update_withdrawal_eq]
  split
  · exact hinv
  · split
    · exact hinv
    · unfold balance_invariant at hinv ⊢
      dsimp only
      linarith

lemma update_dispute_invariant (s : ClientState) (t : TransactionId)
    (s' : ClientState) (h : update_dispute s t = some s')
    (hinv : balance_invariant s) : balance_invariant s' := by
  rw [update_dispute_eq] at h
  split at h
  · exact absurd h (by simp)
  · split at h
    · rw [Option.some.injEq] at h
      subst h
      unfold balance_invariant at hinv ⊢
      dsimp only
      linarith
    · exact absurd h (by simp)

lemma update_resolve_invariant (s : ClientState) (t : TransactionId)
    (s' : ClientState) (h : update_resolve s t = some (some s'))
    (hinv : balance_invariant s) : balance_invariant s' := by
  rw [update_resolve_eq] at h
  split at h
  · simp at h
  · split at h
    · rename_i c inner_tx amt heq
      rw [Option.map_eq_some'] at h
      obtain ⟨x, hx, hxx⟩ := h
      rw [Option.some.injEq] at hxx
      subst hxx
      refine resolve_prev_rejected_invariant inner_tx _ _ hx ?_
      unfold balance_invariant at hinv ⊢
      dsimp only
      linarith
    · simp at h

lemma update_chargeback_invariant (s : ClientState) (t : TransactionId)
    (s' : ClientState) (h : update_chargeback s t = some s')
    (hinv : balance_invariant s) : balance_invariant s' := by
  rw [update_chargeback_eq] at h
  split at h
  · exact absurd h (by simp)
  · split at h
    · rw [Option.some.injEq] at h
      subst h
      unfold balance_invariant at hinv ⊢
      dsimp only
      linarith
    · exact absurd h (by simp)

/-! ## Generic ledger-level preservation -/

lemma mapGet_mem {κ α : Type} [DecidableEq κ] :
    ∀ (m : List (κ × α)) (k : κ) (v : α), mapGet m k = some v → (k, v) ∈ m := by
  intro m
  induction m with
  | nil => intro k v h; exact absurd h (by simp [mapGet])
  | cons p ps ih =>
    intro k v h
    unfold mapGet at h
    split at h
    · rename_i heq
      rw [Option.some.injEq] at h
      subst h
      subst heq
      exact List.mem_cons_self p ps
    · exact List.mem_cons_of_mem p (ih k v h)

lemma mapUpdate_mem {κ α : Type} [DecidableEq κ] :
    ∀ (m : List (κ × α)) (k : κ) (v : α) (p : κ × α),
      p ∈ mapUpdate m k v → p ∈ m ∨ p = (k, v) := by
  intro m
  induction m with
  | nil =>
    intro k v p h
    simp [mapUpdate] at h
    exact Or.inr h
  | cons q qs ih =>
    intro k v p h
    unfold mapUpdate at h
    split at h
    · rcases List.mem_cons.mp h with h1 | h1
      · exact Or.inr h1
      · exact Or.inl (List.mem_cons_of_mem q h1)
    · rcases List.mem_cons.mp h with h1 | h1
      · exact Or.inl (h1 ▸ List.mem_cons_self q qs)
      · rcases ih k v p h1 with h2 | h2
        · exact Or.inl (List.mem_cons_of_mem q h2)
        · exact Or.inr h2

lemma get_or_default_cases (m : LedgerMap) (c : ClientId) :
    get_or_default m c = {} ∨ (c, get_or_default m c) ∈ m := by
  unfold get_or_default
  cases h : mapGet m c with
  | none => exact Or.inl rfl
  | some s => exact Or.inr (by simpa using mapGet_mem m c s h)

lemma resolve_transaction_preserves (P : ClientState → Prop) (hP0 : P {})
    (hdep : ∀ s c t m, P s → P (update_deposit s (AccountActivity.deposit c t m) t m))
    (hwit : ∀ s c t m, P s → P (update_withdrawal s (AccountActivity.withdrawal c t m) t m))
    (hdis : ∀ s t s', update_dispute s t = some s' → P s → P s')
    (hres : ∀ s t s', update_resolve s t = some (some s') → P s → P s')
    (hchb : ∀ s t s', update_chargeback s t = some s' → P s → P s') :
    ∀ (tr : Transaction) (m m' : LedgerMap), resolve_transaction tr m = some m' →
      (∀ p ∈ m, P p.2) → ∀ p ∈ m', P p.2 := by
  intro tr m m' h hm
  have hgd : ∀ c, P (get_or_default m c) := by
    intro c
    rcases get_or_default_cases m c with h1 | h1
    · rw [h1]; exact hP0
    · exact hm _ h1
  cases tr with
  | activity a =>
    cases a with
    | deposit c t amt =>
      simp only [resolve_transaction, Option.some.injEq] at h
      subst h
      intro p hp
      rcases mapUpdate_mem m c _ p hp with h1 | h1
      · exact hm p h1
      · rw [h1]; exact hdep _ c t amt (hgd c)
    | withdrawal c t amt =>
      simp only [resolve_transaction, Option.some.injEq] at h
      subst h
      intro p hp
      rcases mapUpdate_mem m c _ p hp with h1 | h1
      · exact hm p h1
      · rw [h1]; exact hwit _ c t amt (hgd c)
  | dispute d =>
    cases d with
    | dispute c t =>
      simp only [resolve_transaction] at h
      split at h
      · rename_i st hst
        rw [Option.some.injEq] at h
        subst h
        intro p hp
        rcases mapUpdate_mem m c st p hp with h1 | h1
        · exact hm p h1
        · rw [h1]; exact hdis _ t st hst (hgd c)
      · rw [Option.some.injEq] at h
        subst h
        exact hm
    | resolve c t =>
      simp only [resolve_transaction] at h
      split at h
      · exact absurd h (by simp)
      · rw [Option.some.injEq] at h
        subst h
        exact hm
      · rename_i st hst
        rw [Option.some.injEq] at h
        subst h
        intro p hp
        rcases mapUpdate_mem m c st p hp with h1 | h1
        · exact hm p h1
        · rw [h1]; exact hres _ t st hst (hgd c)
    | chargeback c t =>
      simp only [resolve_transaction] at h
      split at h
      · rename_i st hst
        rw [Option.some.injEq] at h
        subst h
        intro p hp
        rcases mapUpdate_mem m c st p hp with h1 | h1
        · exact hm p h1
        · rw [h1]; exact hchb _ t st hst (hgd c)
      · rw [Option.some.injEq] at h
        subst h
        exact hm

lemma apply_transactions_none (ts : List Transaction) :
    ts.foldl (fun acc tx => acc.bind (resolve_transaction tx)) none = none := by
  induction ts with
  | nil => rfl
  | cons x xs ih => simpa using ih

lemma apply_transactions_cons (t : Transaction) (ts : List Transaction)
    (init : LedgerMap) :
    apply_transactions (t :: ts) init =
      (resolve_transaction t init).bind (fun m => apply_transactions ts m) := by
  unfold apply_transactions
  rw [List.foldl_cons]
  simp only [Option.some_bind]
  cases h : resolve_transaction t init with
  | none => simpa using apply_transactions_none ts
  | some m => rfl

lemma apply_transactions_preserves (P : ClientState → Prop)
    (hstep : ∀ tr m m', resolve_transaction tr m = some m' →
      (∀ p ∈ m, P p.2) → ∀ p ∈ m', P p.2) :
    ∀ (txs : List Transaction) (init m : LedgerMap),
      apply_transactions txs init = some m → (∀ p ∈ init, P p.2) →
      ∀ p ∈ m, P p.2 := by
  intro txs
  induction txs with
  | nil =>
    intro init m h hi
    simp only [apply_transactions, List.foldl_nil, Option.some.injEq] at h
    exact h ▸ hi
  | cons t ts ih =>
    intro init m h hi
    rw [apply_transactions_cons] at h
    cases hr : resolve_transaction t init with
    | none => rw [hr] at h; exact absurd h (by simp)
    | some m₁ =>
      rw [hr] at h
      simp only [Option.some_bind] at h
      exact ih m₁ m h (hstep t init m₁ hr hi)

/-! ## The backfill pass: totality and agreement with its specification -/

lemma countActivity_nil (a : AccountActivity) : countActivity [] a = 0 := rfl

lemma countActivity_cons (r : RejectedActivity) (l : List RejectedActivity)
    (a : AccountActivity) :
    countActivity (r :: l) a =
      countActivity l a + if r.activity = a then 1 else 0 := by
  simp [countActivity, List.count_cons]

lemma remove_first_matching_mem (a : AccountActivity) :
    ∀ (l : List RejectedActivity) (r : RejectedActivity),
      r ∈ remove_first_matching a l → r ∈ l := by
  intro l
  induction l with
  | nil => intro r h; exact absurd h (by simp [remove_first_matching])
  | cons q qs ih =>
    intro r h
    unfold remove_first_matching at h
    split at h
    · exact List.mem_cons_of_mem q h
    · rcases List.mem_cons.mp h with h1 | h1
      · exact h1 ▸ List.mem_cons_self q qs
      · exact List.mem_cons_of_mem q (ih r h1)

lemma countActivity_remove_first :
    ∀ (l : List RejectedActivity) (a b : AccountActivity), 0 < countActivity l a →
      countActivity (remove_first_matching a l) b =
        countActivity l b - (if b = a then 1 else 0) := by
  intro l
  induction l with
  | nil => intro a b h; simp [countActivity] at h
  | cons q qs ih =>
    intro a b h
    unfold remove_first_matching
    split
    · rename_i hq
      rw [countActivity_cons]
      by_cases hb : b = a
      · subst hb
        rw [if_pos hq, if_pos rfl]
        omega
      · have hqb : ¬ q.activity = b := fun hh => hb (hh.symm.trans hq)
        rw [if_neg hqb, if_neg hb]
        omega
    · rename_i hq
      have h' : 0 < countActivity qs a := by
        rw [countActivity_cons] at h
        simpa [hq] using h
      rw [countActivity_cons, countActivity_cons, ih a b h']
      by_cases hb : b = a
      · subst hb
        rw [if_neg hq, if_pos rfl]
        omega
      · rw [if_neg hb]
        omega

lemma findIdx_of_count_pos :
    ∀ (l : List RejectedActivity) (a : AccountActivity), 0 < countActivity l a →
      ∃ i, l.findIdx? (fun x => x.activity == a) = some i ∧
        l.eraseIdx i = remove_first_matching a l := by
  intro l
  induction l with
  | nil => intro a h; simp [countActivity] at h
  | cons q qs ih =>
    intro a h
    by_cases hq : q.activity = a
    · exact ⟨0, by simp [List.findIdx?_cons, hq],
        by simp [remove_first_matching, hq]⟩
    · have h' : 0 < countActivity qs a := by
        rw [countActivity_cons] at h
        simpa [hq] using h
      obtain ⟨i, hi, he⟩ := ih a h'
      refine ⟨i + 1, ?_, ?_⟩
      · rw [List.findIdx?_cons, if_neg (by simp [hq]), List.findIdx?_succ, hi]
        rfl
      · simp [remove_first_matching, hq, he]

lemma backfill_fold_eq_spec (tx : TransactionId) :
    ∀ (l : List RejectedActivity) (a : ClientState),
      (∀ r ∈ l, r.activity.isWithdrawal = true) →
      (∀ b, countActivity l b ≤ countActivity a.history.rejected_txs b) →
      l.foldl (fun acc r => acc.bind (fun x => backfill_step tx x r)) (some a) =
        some (l.foldl (backfill_spec_step tx) a) := by
  intro l
  induction l with
  | nil => intro a _ _; rfl
  | cons r rs ih =>
    intro a hw hc
    rw [List.foldl_cons, List.foldl_cons]
    simp only [Option.some_bind]
    obtain ⟨c, t, m, hact⟩ :
        ∃ c t m, r.activity = AccountActivity.withdrawal c t m := by
      have hr := hw r (List.mem_cons_self _ _)
      cases hra : r.activity with
      | deposit c' t' m' =>
        rw [hra] at hr
        simp [AccountActivity.isWithdrawal] at hr
      | withdrawal c' t' m' => exact ⟨c', t', m', rfl⟩
    rcases r with ⟨act, snap⟩
    dsimp only at hact
    subst hact
    by_cases hel : tx ∈ snap ∧ m ≤ a.available
    · have hpos :
          0 < countActivity a.history.rejected_txs (AccountActivity.withdrawal c t m) := by
        have h1 : 0 < countActivity
            (RejectedActivity.mk (AccountActivity.withdrawal c t m) snap :: rs)
            (AccountActivity.withdrawal c t m) := by
          rw [countActivity_cons]
          simp
        exact lt_of_lt_of_le h1 (hc _)
      obtain ⟨i, hi, he⟩ := findIdx_of_count_pos _ _ hpos
      have hstep : backfill_step tx a
          (RejectedActivity.mk (AccountActivity.withdrawal c t m) snap) =
          some { a with
            available := a.available - m
            total := a.total - m
            history := { a.history with
              rejected_txs := remove_first_matching
                (AccountActivity.withdrawal c t m) a.history.rejected_txs } } := by
        rw [backfill_step_eq]
        dsimp only
        rw [if_pos hel, hi]
        dsimp only
        rw [he]
      have hspec : backfill_spec_step tx a
          (RejectedActivity.mk (AccountActivity.withdrawal c t m) snap) =
          { a with
            available := a.available - m
            total := a.total - m
            history := { a.history with
              rejected_txs := remove_first_matching
                (AccountActivity.withdrawal c t m) a.history.rejected_txs } } := by
        unfold backfill_spec_step
        dsimp only
        rw [if_pos hel]
      rw [hstep, hspec]
      refine ih _ (fun r' hr' => hw r' (List.mem_cons_of_mem _ hr')) ?_
      intro b
      have hcb := hc b
      rw [countActivity_cons] at hcb
      have hrem := countActivity_remove_first a.history.rejected_txs
        (AccountActivity.withdrawal c t m) b hpos
      dsimp only
      rw [hrem]
      by_cases hb : b = AccountActivity.withdrawal c t m
      · rw [if_pos hb]
        rw [if_pos (by rw [hb])] at hcb
        omega
      · rw [if_neg hb]
        rw [if_neg (fun hh => hb hh.symm)] at hcb
        omega
    · have hstep : backfill_step tx a
          (RejectedActivity.mk (AccountActivity.withdrawal c t m) snap) = some a := by
        rw [backfill_step_eq]
        exact if_neg hel
      have hspec : backfill_spec_step tx a
          (RejectedActivity.mk (AccountActivity.withdrawal c t m) snap) = a := by
        unfold backfill_spec_step
        exact if_neg hel
      rw [hstep, hspec]
      refine ih _ (fun r' hr' => hw r' (List.mem_cons_of_mem _ hr')) ?_
      intro b
      have hcb := hc b
      rw [countActivity_cons] at hcb
      exact le_trans (Nat.le_add_right _ _) hcb

/-- On a state whose rejected entries are all withdrawals, the backfill pass
of the source never panics and computes exactly the specified single
left-to-right pass. -/
lemma resolve_prev_rejected_eq_spec (tx : TransactionId) (s : ClientState)
    (hw : ∀ r ∈ s.history.rejected_txs, r.activity.isWithdrawal = true) :
    resolve_prev_rejected tx s =
      some (s.history.rejected_txs.foldl (backfill_spec_step tx) s) :=
  backfill_fold_eq_spec tx s.history.rejected_txs s hw (fun _ => le_refl _)

/-! ## Preservation of all-withdrawal rejected lists, and totality -/

lemma update_deposit_rejected (s : ClientState) (a : AccountActivity)
    (t : TransactionId) (m : MonetaryAmount) :
    (update_deposit s a t m).history.rejected_txs = s.history.rejected_txs := by
  unfold update_deposit
  split <;> rfl

lemma update_withdrawal_rejected_mem (s : ClientState) (a : AccountActivity)
    (t : TransactionId) (m : MonetaryAmount) (r : RejectedActivity)
    (hr : r ∈ (update_withdrawal s a t m).history.rejected_txs) :
    r ∈ s.history.rejected_txs ∨ r.activity = a := by
  rw [update_withdrawal_eq] at hr
  split at hr
  · exact Or.inl hr
  · split at hr
    · dsimp only at hr
      rcases List.mem_append.mp hr with h1 | h1
      · exact Or.inl h1
      · rw [List.mem_singleton] at h1
        subst h1
        exact Or.inr rfl
    · dsimp only at hr
      exact Or.inl hr

lemma update_dispute_rejected (s : ClientState) (t : TransactionId)
    (s' : ClientState) (h : update_dispute s t = some s') :
    s'.history.rejected_txs = s.history.rejected_txs := by
  rw [update_dispute_eq] at h
  split at h
  · exact absurd h (by simp)
  · split at h
    · rw [Option.some.injEq] at h
      subst h
      rfl
    · exact absurd h (by simp)

lemma update_chargeback_rejected (s : ClientState) (t : TransactionId)
    (s' : ClientState) (h : update_chargeback s t = some s') :
    s'.history.rejected_txs = s.history.rejected_txs := by
  rw [update_chargeback_eq] at h
  split at h
  · exact absurd h (by simp)
  · split at h
    · rw [Option.some.injEq] at h
      subst h
      rfl
    · exact absurd h (by simp)

lemma backfill_spec_step_withdrawals (tx : TransactionId) (a : ClientState)
    (r : RejectedActivity) (hw : rejected_all_withdrawals a) :
    rejected_all_withdrawals (backfill_spec_step tx a r) := by
  unfold backfill_spec_step
  rcases r with ⟨act, snap⟩
  cases act with
  | deposit c t m => exact hw
  | withdrawal c t m =>
    dsimp only
    split
    · intro r' hr'
      dsimp only at hr'
      exact hw r' (remove_first_matching_mem _ _ r' hr')
    · exact hw

lemma spec_fold_withdrawals (tx : TransactionId) :
    ∀ (l : List RejectedActivity) (a : ClientState),
      rejected_all_withdrawals a →
      rejected_all_withdrawals (l.foldl (backfill_spec_step tx) a) := by
  intro l
  induction l with
  | nil => intro a h; exact h
  | cons r rs ih =>
    intro a h
    rw [List.foldl_cons]
    exact ih _ (backfill_spec_step_withdrawals tx a r h)

lemma update_resolve_withdrawals (s : ClientState) (t : TransactionId)
    (s' : ClientState) (h : update_resolve s t = some (some s'))
    (hw : rejected_all_withdrawals s) : rejected_all_withdrawals s' := by
  rw [update_resolve_eq] at h
  split at h
  · simp at h
  · split at h
    · rename_i c inner_tx amt heq
      rw [resolve_prev_rejected_eq_spec inner_tx
        { s with
          available := s.available + amt
          held := s.held - amt
          history := { s.history with
            disputed_txs := setWithout s.history.disputed_txs inner_tx } } hw] at h
      simp only [Option.map_some', Option.some.injEq] at h
      subst h
      exact spec_fold_withdrawals inner_tx _ _ hw
    · simp at h

lemma update_resolve_total (s : ClientState) (t : TransactionId)
    (hw : rejected_all_withdrawals s) :
    ∃ o, update_resolve s t = some o := by
  rw [update_resolve_eq]
  split
  · exact ⟨none, rfl⟩
  · split
    · rename_i c inner_tx amt heq
      rw [resolve_prev_rejected_eq_spec inner_tx
        { s with
          available := s.available + amt
          held := s.held - amt
          history := { s.history with
            disputed_txs := setWithout s.history.disputed_txs inner_tx } } hw]
      exact ⟨_, rfl⟩
    · exact ⟨none, rfl⟩

lemma resolve_transaction_withdrawals :
    ∀ (tr : Transaction) (m m' : LedgerMap), resolve_transaction tr m = some m' →
      (∀ p ∈ m, rejected_all_withdrawals p.2) →
      ∀ p ∈ m', rejected_all_withdrawals p.2 :=
  resolve_transaction_preserves rejected_all_withdrawals
    (fun r hr => absurd hr (List.not_mem_nil r))
    (fun s c t m hw => by
      intro r hr
      rw [update_deposit_rejected] at hr
      exact hw r hr)
    (fun s c t m hw => by
      intro r hr
      rcases update_withdrawal_rejected_mem s _ t m r hr with h1 | h1
      · exact hw r h1
      · rw [h1]; rfl)
    (fun s t s' h hw => by
      intro r hr
      rw [update_dispute_rejected s t s' h] at hr
      exact hw r hr)
    update_resolve_withdrawals
    (fun s t s' h hw => by
      intro r hr
      rw [update_chargeback_rejected s t s' h] at hr
      exact hw r hr)

lemma resolve_transaction_total (tr : Transaction) (m : LedgerMap)
    (hm : ∀ p ∈ m, rejected_all_withdrawals p.2) :
    ∃ m', resolve_transaction tr m = some m' := by
  have hgd : ∀ c, rejected_all_withdrawals (get_or_default m c) := by
    intro c
    rcases get_or_default_cases m c with h1 | h1
    · rw [h1]; exact fun r hr => absurd hr (List.not_mem_nil r)
    · exact hm _ h1
  cases tr with
  | activity a =>
    cases a with
    | deposit c t amt => exact ⟨_, rfl⟩
    | withdrawal c t amt => exact ⟨_, rfl⟩
  | dispute d =>
    cases d with
    | dispute c t =>
      simp only [resolve_transaction]
      cases update_dispute (get_or_default m c) t
      · exact ⟨m, rfl⟩
      · exact ⟨_, rfl⟩
    | resolve c t =>
      simp only [resolve_transaction]
      obtain ⟨o, ho⟩ := update_resolve_total (get_or_default m c) t (hgd c)
      rw [ho]
      cases o
      · exact ⟨m, rfl⟩
      · exact ⟨_, rfl⟩
    | chargeback c t =>
      simp only [resolve_transaction]
      cases update_chargeback (get_or_default m c) t
      · exact ⟨m, rfl⟩
      · exact ⟨_, rfl⟩

lemma apply_transactions_total :
    ∀ (txs : List Transaction) (init : LedgerMap),
      (∀ p ∈ init, rejected_all_withdrawals p.2) →
      ∃ m, apply_transactions txs init = some m := by
  intro txs
  induction txs with
  | nil => intro init _; exact ⟨init, rfl⟩
  | cons t ts ih =>
    intro init hi
    obtain ⟨m₁, hm₁⟩ := resolve_transaction_total t init hi
    have hw₁ := resolve_transaction_withdrawals t init m₁ hm₁ hi
    obtain ⟨m, hm⟩ := ih m₁ hw₁
    refine ⟨m, ?_⟩
    rw [apply_transactions_cons, hm₁]
    simpa using hm

lemma setUpdate_mem (l : List TransactionId) (tx : TransactionId) :
    tx ∈ setUpdate l tx := by
  unfold setUpdate
  split
  · assumption
  · exact List.mem_cons_self tx l

/-! ## Which clients have rows in the final ledger -/

lemma mapKeys_cons {κ α : Type} (p : κ × α) (ps : List (κ × α)) :
    mapKeys (p :: ps) = p.1 :: mapKeys ps := rfl

lemma mapGet_eq_none {κ α : Type} [DecidableEq κ] :
    ∀ (m : List (κ × α)) (k : κ), k ∉ mapKeys m → mapGet m k = none := by
  intro m
  induction m with
  | nil => intro k _; rfl
  | cons p ps ih =>
    intro k h
    simp only [mapKeys_cons, List.mem_cons, not_or] at h
    unfold mapGet
    rw [if_neg (fun hh => h.1 hh.symm)]
    exact ih k h.2

lemma get_or_default_of_not_mem (m : LedgerMap) (c : ClientId)
    (h : c ∉ mapKeys m) : get_or_default m c = {} := by
  unfold get_or_default
  rw [mapGet_eq_none m c h]
  rfl

lemma update_dispute_default (t : TransactionId) :
    update_dispute {} t = none := rfl

lemma update_resolve_default (t : TransactionId) :
    update_resolve {} t = some none := rfl

lemma update_chargeback_default (t : TransactionId) :
    update_chargeback {} t = none := rfl

lemma mapKeys_mapUpdate {κ α : Type} [DecidableEq κ] :
    ∀ (m : List (κ × α)) (k : κ) (v : α),
      mapKeys (mapUpdate m k v) =
        if k ∈ mapKeys m then mapKeys m else mapKeys m ++ [k] := by
  intro m
  induction m with
  | nil => intro k v; rfl
  | cons p ps ih =>
    intro k v
    unfold mapUpdate
    split
    · rename_i hpk
      rw [if_pos (by rw [mapKeys_cons, hpk]; exact List.mem_cons_self k _)]
      rw [mapKeys_cons, mapKeys_cons, hpk]
    · rename_i hpk
      have hcons : mapKeys (p :: mapUpdate ps k v) =
          p.1 :: mapKeys (mapUpdate ps k v) := rfl
      rw [hcons, ih]
      by_cases hmem : k ∈ mapKeys ps
      · rw [if_pos hmem,
          if_pos (by rw [mapKeys_cons]; exact List.mem_cons_of_mem _ hmem),
          mapKeys_cons]
      · rw [if_neg hmem,
          if_neg (by
            rw [mapKeys_cons]
            intro hc
            rcases List.mem_cons.mp hc with h1 | h1
            · exact hpk h1.symm
            · exact hmem h1),
          mapKeys_cons]
        rfl

lemma mem_mapKeys_mapUpdate {κ α : Type} [DecidableEq κ]
    (m : List (κ × α)) (k : κ) (v : α) (c : κ) :
    c ∈ mapKeys (mapUpdate m k v) ↔ c ∈ mapKeys m ∨ c = k := by
  rw [mapKeys_mapUpdate]
  split
  · rename_i hmem
    constructor
    · exact Or.inl
    · rintro (h | h)
      · exact h
      · exact h ▸ hmem
  · constructor
    · intro hc
      rcases List.mem_append.mp hc with h1 | h1
      · exact Or.inl h1
      · exact Or.inr (List.mem_singleton.mp h1)
    · rintro (h | h)
      · exact List.mem_append_left _ h
      · exact h ▸ List.mem_append_right _ (List.mem_singleton.mpr rfl)

lemma mapKeys_nodup_mapUpdate {κ α : Type} [DecidableEq κ]
    (m : List (κ × α)) (k : κ) (v : α) (h : (mapKeys m).Nodup) :
    (mapKeys (mapUpdate m k v)).Nodup := by
  rw [mapKeys_mapUpdate]
  split
  · exact h
  · rename_i hmem
    simp [List.nodup_append, h, hmem]

lemma resolve_transaction_nodup (tr : Transaction) (m m' : LedgerMap)
    (h : resolve_transaction tr m = some m') (hn : (mapKeys m).Nodup) :
    (mapKeys m').Nodup := by
  cases tr with
  | activity a =>
    cases a with
    | deposit c t amt =>
      simp only [resolve_transaction, Option.some.injEq] at h
      subst h
      exact mapKeys_nodup_mapUpdate m c _ hn
    | withdrawal c t amt =>
      simp only [resolve_transaction, Option.some.injEq] at h
      subst h
      exact mapKeys_nodup_mapUpdate m c _ hn
  | dispute d =>
    cases d with
    | dispute c t =>
      simp only [resolve_transaction] at h
      split at h
      · rw [Option.some.injEq] at h
        subst h
        exact mapKeys_nodup_mapUpdate m c _ hn
      · rw [Option.some.injEq] at h
        subst h
        exact hn
    | resolve c t =>
      simp only [resolve_transaction] at h
      split at h
      · exact absurd h (by simp)
      · rw [Option.some.injEq] at h
        subst h
        exact hn
      · rw [Option.some.injEq] at h
        subst h
        exact mapKeys_nodup_mapUpdate m c _ hn
    | chargeback c t =>
      simp only [resolve_transaction] at h
      split at h
      · rw [Option.some.injEq] at h
        subst h
        exact mapKeys_nodup_mapUpdate m c _ hn
      · rw [Option.some.injEq] at h
        subst h
        exact hn

lemma resolve_transaction_keys (tr : Transaction) (m m' : LedgerMap)
    (h : resolve_transaction tr m = some m') (c : ClientId) :
    c ∈ mapKeys m' ↔ c ∈ mapKeys m ∨
      ∃ a, tr = Transaction.activity a ∧ activity_client a = c := by
  cases tr with
  | activity a =>
    cases a with
    | deposit c₀ t amt =>
      simp only [resolve_transaction, Option.some.injEq] at h
      subst h
      rw [mem_mapKeys_mapUpdate]
      simp only [Transaction.activity.injEq]
      constructor
      · rintro (h1 | h1)
        · exact Or.inl h1
        · exact Or.inr ⟨_, rfl, h1.symm⟩
      · rintro (h1 | ⟨a, ha, hc⟩)
        · exact Or.inl h1
        · subst ha
          exact Or.inr hc.symm
    | withdrawal c₀ t amt =>
      simp only [resolve_transaction, Option.some.injEq] at h
      subst h
      rw [mem_mapKeys_mapUpdate]
      simp only [Transaction.activity.injEq]
      constructor
      · rintro (h1 | h1)
        · exact Or.inl h1
        · exact Or.inr ⟨_, rfl, h1.symm⟩
      · rintro (h1 | ⟨a, ha, hc⟩)
        · exact Or.inl h1
        · subst ha
          exact Or.inr hc.symm
  | dispute d =>
    have hnact : ∀ a : AccountActivity,
        ¬ (Transaction.dispute d = Transaction.activity a) := by
      intro a hc
      cases hc
    cases d with
    | dispute c₀ t =>
      simp only [resolve_transaction] at h
      split at h
      · rename_i st hst
        rw [Option.some.injEq] at h
        subst h
        rw [mem_mapKeys_mapUpdate]
        have hc₀ : c₀ ∈ mapKeys m := by
          by_contra hnc
          rw [get_or_default_of_not_mem m c₀ hnc, update_dispute_default] at hst
          exact absurd hst (by simp)
        constructor
        · rintro (h1 | h1)
          · exact Or.inl h1
          · exact Or.inl (h1 ▸ hc₀)
        · rintro (h1 | ⟨a, ha, _⟩)
          · exact Or.inl h1
          · exact absurd ha (hnact a)
      · rw [Option.some.injEq] at h
        subst h
        constructor
        · exact Or.inl
        · rintro (h1 | ⟨a, ha, _⟩)
          · exact h1
          · exact absurd ha (hnact a)
    | resolve c₀ t =>
      simp only [resolve_transaction] at h
      split at h
      · exact absurd h (by simp)
      · rw [Option.some.injEq] at h
        subst h
        constructor
        · exact Or.inl
        · rintro (h1 | ⟨a, ha, _⟩)
          · exact h1
          · exact absurd ha (hnact a)
      · rename_i st hst
        rw [Option.some.injEq] at h
        subst h
        rw [mem_mapKeys_mapUpdate]
        have hc₀ : c₀ ∈ mapKeys m := by
          by_contra hnc
          rw [get_or_default_of_not_mem m c₀ hnc, update_resolve_default] at hst
          exact absurd hst (by simp)
        constructor
        · rintro (h1 | h1)
          · exact Or.inl h1
          · exact Or.inl (h1 ▸ hc₀)
        · rintro (h1 | ⟨a, ha, _⟩)
          · exact Or.inl h1
          · exact absurd ha (hnact a)
    | chargeback c₀ t =>
      simp only [resolve_transaction] at h
      split at h
      · rename_i st hst
        rw [Option.some.injEq] at h
        subst h
        rw [mem_mapKeys_mapUpdate]
        have hc₀ : c₀ ∈ mapKeys m := by
          by_contra hnc
          rw [get_or_default_of_not_mem m c₀ hnc, update_chargeback_default] at hst
          exact absurd hst (by simp)
        constructor
        · rintro (h1 | h1)
          · exact Or.inl h1
          · exact Or.inl (h1 ▸ hc₀)
        · rintro (h1 | ⟨a, ha, _⟩)
          · exact Or.inl h1
          · exact absurd ha (hnact a)
      · rw [Option.some.injEq] at h
        subst h
        constructor
        · exact Or.inl
        · rintro (h1 | ⟨a, ha, _⟩)
          · exact h1
          · exact absurd ha (hnact a)

lemma mem_activity_clients_cons (t : Transaction) (ts : List Transaction)
    (c : ClientId) :
    c ∈ activity_clients (t :: ts) ↔
      (∃ a, t = Transaction.activity a ∧ activity_client a = c) ∨
        c ∈ activity_clients ts := by
  cases t with
  | activity a =>
    simp only [activity_clients, List.filterMap_cons]
    simp [Transaction.activity.injEq, eq_comm]
  | dispute d =>
    simp only [activity_clients, List.filterMap_cons]
    constructor
    · exact fun h => Or.inr h
    · rintro (⟨a, ha, _⟩ | h)
      · cases ha
      · exact h

lemma apply_transactions_keys :
    ∀ (txs : List Transaction) (init m : LedgerMap),
      apply_transactions txs init = some m →
      ((mapKeys init).Nodup → (mapKeys m).Nodup) ∧
      (∀ c, c ∈ mapKeys m ↔ c ∈ mapKeys init ∨ c ∈ activity_clients txs) := by
  intro txs
  induction txs with
  | nil =>
    intro init m h
    simp only [apply_transactions, List.foldl_nil, Option.some.injEq] at h
    subst h
    exact ⟨id, fun c => by simp [activity_clients]⟩
  | cons t ts ih =>
    intro init m h
    rw [apply_transactions_cons] at h
    cases hr : resolve_transaction t init with
    | none =>
      rw [hr] at h
      exact absurd h (by simp)
    | some m₁ =>
      rw [hr] at h
      simp only [Option.some_bind] at h
      obtain ⟨hnod, hiff⟩ := ih m₁ m h
      refine ⟨fun hn => hnod (resolve_transaction_nodup t init m₁ hr hn), ?_⟩
      intro c
      rw [hiff c, resolve_transaction_keys t init m₁ hr c,
        mem_activity_clients_cons]
      exact or_assoc

/-! ## Claims -/

/-- C3: for a withdrawal on an unlocked client state exactly one of three
outcomes occurs: (1) if (available < amount and no open dispute) or
total < amount, the state is returned completely unchanged and the withdrawal
is recorded nowhere; (2) otherwise if available < amount and a dispute is
open, balances are unchanged and a `RejectedActivity` with a snapshot of the
current disputes is appended to `rejected_txs`; (3) otherwise
available ≥ amount and available and total each decrease by the amount while
the withdrawal is recorded in `account_activity` under its id. -/
theorem c3_withdrawal_trichotomy (s : ClientState) (c : ClientId)
    (t : TransactionId) (m : MonetaryAmount) (hl : s.is_locked = false) :
    (((s.available < m ∧ s.history.disputed_txs = []) ∨ s.total < m) →
        update_withdrawal s (AccountActivity.withdrawal c t m) t m = s) ∧
    (¬ ((s.available < m ∧ s.history.disputed_txs = []) ∨ s.total < m) →
      ((s.available < m ∧ s.history.disputed_txs ≠ [] →
          update_withdrawal s (AccountActivity.withdrawal c t m) t m =
            { s with history := { s.history with
                rejected_txs := s.history.rejected_txs ++
                  [{ activity := AccountActivity.withdrawal c t m
                     disputed_transaction_snapshot := s.history.disputed_txs }] } }) ∧
        (¬ (s.available < m ∧ s.history.disputed_txs ≠ []) →
          m ≤ s.available ∧
          update_withdrawal s (AccountActivity.withdrawal c t m) t m =
            { s with
              available := s.available - m
              total := s.total - m
              history := { s.history with
                account_activity := mapUpdate s.history.account_activity t
                  (AccountActivity.withdrawal c t m) } }))) := by
  refine ⟨?_, ?_⟩
  · intro h
    rw [update_withdrawal_eq, if_pos (Or.inr h)]
  · intro hno
    have hcond : ¬ (s.is_locked = true ∨
        ((s.available < m ∧ s.history.disputed_txs = []) ∨ s.total < m)) := by
      rintro (h | h)
      · rw [hl] at h
        exact Bool.false_ne_true h
      · exact hno h
    refine ⟨?_, ?_⟩
    · intro hpb
      rw [update_withdrawal_eq, if_neg hcond, if_pos hpb]
    · intro hnb
      have havail : m ≤ s.available := by
        by_cases hlt : s.available < m
        · exfalso
          by_cases hd : s.history.disputed_txs = []
          · exact hno (Or.inl ⟨hlt, hd⟩)
          · exact hnb ⟨hlt, hd⟩
        · exact le_of_not_lt hlt
      exact ⟨havail, by rw [update_withdrawal_eq, if_neg hcond, if_neg hnb]⟩

/-- Witness for C3: a withdrawal of 5 from the default (empty) state is
dropped entirely. -/
theorem c3_witness :
    update_withdrawal {} (AccountActivity.withdrawal 0 1 5) 1 5 =
      ({} : ClientState) :=
  (c3_withdrawal_trichotomy {} 0 1 5 rfl).1 (Or.inr (by decide))

/-- C4: a rejected withdrawal is applied by the backfill pass of a resolve
of `tx` only if `tx` is in its `disputed_transaction_snapshot`: an entry whose
snapshot does not contain `tx` leaves the accumulator and the list unchanged,
and when no entry's snapshot contains `tx` the whole pass is the identity, so
a withdrawal rejected before the dispute on `tx` was opened (whose snapshot
therefore cannot contain `tx`) is never backfilled by the resolve of `tx`. -/
theorem c4_backfill_causality :
    (∀ (tx : TransactionId) (a : ClientState) (r : RejectedActivity),
        r.activity.isWithdrawal = true →
        tx ∉ r.disputed_transaction_snapshot →
        backfill_step tx a r = some a) ∧
    (∀ (tx : TransactionId) (s : ClientState),
        (∀ r ∈ s.history.rejected_txs,
          r.activity.isWithdrawal = true ∧ tx ∉ r.disputed_transaction_snapshot) →
        resolve_prev_rejected tx s = some s) := by
  have hstep : ∀ (tx : TransactionId) (a : ClientState) (r : RejectedActivity),
      r.activity.isWithdrawal = true → tx ∉ r.disputed_transaction_snapshot →
      backfill_step tx a r = some a := by
    intro tx a r hw hns
    rcases r with ⟨act, snap⟩
    cases act with
    | deposit c t m => simp [AccountActivity.isWithdrawal] at hw
    | withdrawal c t m =>
      rw [backfill_step_eq]
      exact if_neg (fun h => hns h.1)
  refine ⟨hstep, ?_⟩
  intro tx s h
  exact foldl_bind_id (fun a r => backfill_step tx a r) s.history.rejected_txs s
    (fun r hr a => hstep tx a r (h r hr).1 (h r hr).2)

/-- Witness for C4: resolving id 7 leaves a rejected withdrawal whose
snapshot is `[1]` untouched. -/
theorem c4_witness :
    resolve_prev_rejected 7
      { history := { rejected_txs :=
          [{ activity := AccountActivity.withdrawal 0 2 5
             disputed_transaction_snapshot := [1] }] } } =
      some { history := { rejected_txs :=
          [{ activity := AccountActivity.withdrawal 0 2 5
             disputed_transaction_snapshot := [1] }] } } :=
  c4_backfill_causality.2 7 _ (by decide)

/-- C5: a locked client state is a fixed point of all five transaction
rules: deposit and withdrawal return the state unchanged, and dispute,
resolve and chargeback are ignored (so `resolve_transaction` keeps the old
state). -/
theorem c5_locked_fixed_point (s : ClientState) (hl : s.is_locked = true)
    (a : AccountActivity) (t : TransactionId) (m : MonetaryAmount) :
    update_deposit s a t m = s ∧
    update_withdrawal s a t m = s ∧
    update_dispute s t = none ∧
    update_resolve s t = some none ∧
    update_chargeback s t = none := by
  refine ⟨?_, ?_, ?_, ?_, ?_⟩
  · simp [update_deposit, hl]
  · rw [update_withdrawal_eq, if_pos (Or.inl hl)]
  · rw [update_dispute_eq, if_pos (Or.inl hl)]
  · rw [update_resolve_eq, if_pos (Or.inl hl)]
  · rw [update_chargeback_eq, if_pos (Or.inl hl)]

/-- Witness for C5: all five rules leave a concrete locked state unchanged. -/
theorem c5_witness :
    update_deposit { is_locked := true } (AccountActivity.deposit 0 1 5) 1 5 =
      ({ is_locked := true } : ClientState) ∧
    update_withdrawal { is_locked := true } (AccountActivity.deposit 0 1 5) 1 5 =
      ({ is_locked := true } : ClientState) ∧
    update_dispute { is_locked := true } 1 = none ∧
    update_resolve { is_locked := true } 1 = some none ∧
    update_chargeback { is_locked := true } 1 = none :=
  c5_locked_fixed_point { is_locked := true } rfl (AccountActivity.deposit 0 1 5) 1 5

/-- C7: a successful chargeback changes exactly three fields: total and
held each decrease by the disputed deposit's amount and the account becomes
locked; available and the whole history are untouched. -/
theorem c7_chargeback_frame (s : ClientState) (tx : TransactionId)
    (c : ClientId) (t : TransactionId) (amt : MonetaryAmount)
    (hl : s.is_locked = false) (hd : tx ∈ s.history.disputed_txs)
    (hget : mapGet s.history.account_activity tx =
      some (AccountActivity.deposit c t amt)) :
    update_chargeback s tx =
      some { s with
        total := s.total - amt
        held := s.held - amt
        is_locked := true } := by
  rw [update_chargeback_eq,
    if_neg (show ¬ _ by
      rintro (h | h)
      · rw [hl] at h
        exact Bool.false_ne_true h
      · exact h hd),
    hget]

/-- Witness for C7: chargeback of a disputed deposit of 5 on a concrete
state. -/
theorem c7_witness :
    update_chargeback
      { available := 0, held := 5, total := 5, is_locked := false
        history := { account_activity := [(1, AccountActivity.deposit 0 1 5)]
                     disputed_txs := [1], rejected_txs := [] } } 1 =
      some { available := 0, held := 0, total := 0, is_locked := true
             history := { account_activity := [(1, AccountActivity.deposit 0 1 5)]
                          disputed_txs := [1], rejected_txs := [] } } :=
  c7_chargeback_frame _ 1 0 1 5 rfl (by decide) (by decide)

/-- C9: the dispute rule subtracts the disputed deposit's amount from
available without checking that available covers it: from the empty ledger,
deposit 5, withdraw 5, then dispute the deposit; the final row has
available = -5, held = 5, total = 0. -/
theorem c9_negative_available :
    create_ledger
      [Transaction.activity (AccountActivity.deposit 0 1 5),
       Transaction.activity (AccountActivity.withdrawal 0 2 5),
       Transaction.dispute (DisputeManagement.dispute 0 1)] =
    some (Ledger.mk
      [{ id := 0, available := -5, held := 5, total := 0, is_locked := false }]) := by
  decide

/-- C1: every transaction rule preserves `total = available + held`
(deposit, withdrawal, dispute, resolve including its backfill pass, and
chargeback), and consequently in every ledger reachable from the empty ledger
by a finite transaction sequence every client's state satisfies the
invariant — each prefix of a sequence is itself a sequence, so this covers
every point of the fold. -/
theorem c1_balance_invariant :
    (∀ (s : ClientState) (a : AccountActivity) (t : TransactionId)
        (m : MonetaryAmount),
        balance_invariant s → balance_invariant (update_deposit s a t m)) ∧
    (∀ (s : ClientState) (a : AccountActivity) (t : TransactionId)
        (m : MonetaryAmount),
        balance_invariant s → balance_invariant (update_withdrawal s a t m)) ∧
    (∀ (s : ClientState) (t : TransactionId) (s' : ClientState),
        update_dispute s t = some s' →
        balance_invariant s → balance_invariant s') ∧
    (∀ (s : ClientState) (t : TransactionId) (s' : ClientState),
        update_resolve s t = some (some s') →
        balance_invariant s → balance_invariant s') ∧
    (∀ (s : ClientState) (t : TransactionId) (s' : ClientState),
        update_chargeback s t = some s' →
        balance_invariant s → balance_invariant s') ∧
    (∀ (txs : List Transaction) (m : LedgerMap),
        apply_transactions txs [] = some m → ∀ p ∈ m, balance_invariant p.2) := by
  refine ⟨update_deposit_invariant, update_withdrawal_invariant,
    update_dispute_invariant, update_resolve_invariant,
    update_chargeback_invariant, ?_⟩
  intro txs m h
  refine apply_transactions_preserves balance_invariant ?_ txs [] m h (by simp)
  exact resolve_transaction_preserves balance_invariant rfl
    (fun s c t m => update_deposit_invariant s _ t m)
    (fun s c t m => update_withdrawal_invariant s _ t m)
    update_dispute_invariant update_resolve_invariant update_chargeback_invariant

/-- Witness for C1: the invariant holds after a deposit of 5 on the default
state, whose invariant is discharged concretely. -/
theorem c1_witness :
    balance_invariant (update_deposit {} (AccountActivity.deposit 0 1 5) 1 5) :=
  c1_balance_invariant.1 {} (AccountActivity.deposit 0 1 5) 1 5 (by decide)

/-- C2: a successful resolve of a disputed deposit first adds the amount
to available, subtracts it from held and removes the id from `disputed_txs`,
and then runs exactly one left-to-right pass (a single fold, no fixed-point
iteration) over the client's `rejected_txs` in stored order, with an
accumulator starting at the post-resolve state, where each step is the
specified `backfill_spec_step`: an entry whose snapshot contains the resolved
id and whose withdrawal amount is within the accumulator's available funds
has the amount subtracted from available and total and the first
activity-equal entry removed; every other entry changes nothing. -/
theorem c2_resolve_single_pass (s : ClientState) (tx : TransactionId)
    (c : ClientId) (amt : MonetaryAmount) (hl : s.is_locked = false)
    (hd : tx ∈ s.history.disputed_txs)
    (hget : mapGet s.history.account_activity tx =
      some (AccountActivity.deposit c tx amt))
    (hw : rejected_all_withdrawals s) :
    update_resolve s tx =
      some (some (s.history.rejected_txs.foldl (backfill_spec_step tx)
        { s with
          available := s.available + amt
          held := s.held - amt
          history := { s.history with
            disputed_txs := setWithout s.history.disputed_txs tx } })) := by
  rw [update_resolve_eq,
    if_neg (show ¬ _ by
      rintro (h | h)
      · rw [hl] at h
        exact Bool.false_ne_true h
      · exact h hd),
    hget]
  dsimp only
  rw [resolve_prev_rejected_eq_spec tx
    { s with
      available := s.available + amt
      held := s.held - amt
      history := { s.history with
        disputed_txs := setWithout s.history.disputed_txs tx } } hw]
  rfl

/-- Witness for C2: resolving the disputed deposit 2 of 10 on a state that
holds a rejected withdrawal of 250 with snapshot containing 2 backfills that
withdrawal: available 240 → 250 → 0, total 250 → 0, rejected list emptied. -/
theorem c2_witness :
    update_resolve
      { available := 240, held := 10, total := 250, is_locked := false
        history := { account_activity := [(2, AccountActivity.deposit 1 2 10)]
                     disputed_txs := [2]
                     rejected_txs := [{ activity := AccountActivity.withdrawal 1 3 250
                                        disputed_transaction_snapshot := [2] }] } } 2 =
      some (some
        { available := 0, held := 0, total := 0, is_locked := false
          history := { account_activity := [(2, AccountActivity.deposit 1 2 10)]
                       disputed_txs := []
                       rejected_txs := [] } }) :=
  c2_resolve_single_pass _ 2 1 10 rfl (by decide) (by decide) (by decide)

/-- C10: in every ledger reachable from the empty ledger every rejected
entry of every client holds a withdrawal activity (only the withdrawal rule
appends to `rejected_txs`, and it appends the withdrawal being processed);
on such states the backfill pass never panics (returns `some`), and hence the
whole fold from the empty ledger never panics for any transaction
sequence. -/
theorem c10_rejected_withdrawals_no_panic :
    (∀ (txs : List Transaction) (m : LedgerMap),
        apply_transactions txs [] = some m →
        ∀ p ∈ m, rejected_all_withdrawals p.2) ∧
    (∀ (s : ClientState) (tx : TransactionId), rejected_all_withdrawals s →
        ∃ s', resolve_prev_rejected tx s = some s') ∧
    (∀ txs : List Transaction, ∃ m, apply_transactions txs [] = some m) := by
  refine ⟨?_, ?_, ?_⟩
  · intro txs m h
    exact apply_transactions_preserves rejected_all_withdrawals
      resolve_transaction_withdrawals txs [] m h
      (fun p hp => absurd hp (List.not_mem_nil p))
  · intro s tx hw
    exact ⟨_, resolve_prev_rejected_eq_spec tx s hw⟩
  · intro txs
    exact apply_transactions_total txs []
      (fun p hp => absurd hp (List.not_mem_nil p))

/-- Witness for C10: the backfill pass does not panic on a concrete state
with an all-withdrawal rejected list. -/
theorem c10_witness :
    resolve_prev_rejected 1
      { available := 10
        history := { rejected_txs :=
          [{ activity := AccountActivity.withdrawal 0 2 5
             disputed_transaction_snapshot := [1] }] } } ≠ none := by
  obtain ⟨s', hs'⟩ := c10_rejected_withdrawals_no_panic.2.1
    { available := 10
      history := { rejected_txs :=
        [{ activity := AccountActivity.withdrawal 0 2 5
           disputed_transaction_snapshot := [1] }] } } 1 (by decide)
  rw [hs']
  simp

/-- Counterexample to C8 as stated: on an artificial state whose recorded
deposit is stored under key 0 but carries inner transaction id 1, applying
the same dispute twice is not the same as applying it once — each successful
dispute inserts the deposit's inner id (not the disputed key) into
`disputed_txs`, so the early-return guard never fires and the amount is
subtracted twice. -/
theorem c8_counterexample :
    apply_dispute (apply_dispute
      { available := 10, held := 0, total := 10, is_locked := false
        history := { account_activity := [(0, AccountActivity.deposit 0 1 5)]
                     disputed_txs := [], rejected_txs := [] } } 0) 0 ≠
    apply_dispute
      { available := 10, held := 0, total := 10, is_locked := false
        history := { account_activity := [(0, AccountActivity.deposit 0 1 5)]
                     disputed_txs := [], rejected_txs := [] } } 0 := by
  decide

/-- C8, amended: a dispute on an already-disputed transaction id is a
no-op on every state; and on every state in which the recorded deposit stored
under `tx` (if any) carries `tx` as its own transaction id — which holds for
every state the engine builds, since activities are recorded under their own
ids — applying the same dispute n ≥ 1 times yields exactly the state of
applying it once. -/
theorem c8_dispute_idempotence (s : ClientState) (tx : TransactionId) :
    (tx ∈ s.history.disputed_txs → update_dispute s tx = none) ∧
    ((∀ c t' a, mapGet s.history.account_activity tx =
        some (AccountActivity.deposit c t' a) → t' = tx) →
      ∀ n : Nat, 1 ≤ n →
        Nat.iterate (fun st => apply_dispute st tx) n s = apply_dispute s tx) := by
  have hnoop : ∀ (st : ClientState), tx ∈ st.history.disputed_txs →
      update_dispute st tx = none := by
    intro st hd
    rw [update_dispute_eq]
    exact if_pos (Or.inr hd)
  have hkey : ∀ (st : ClientState),
      (∀ c t' a, mapGet st.history.account_activity tx =
        some (AccountActivity.deposit c t' a) → t' = tx) →
      apply_dispute (apply_dispute st tx) tx = apply_dispute st tx := by
    intro st hyp
    cases hud : update_dispute st tx with
    | none => simp [apply_dispute, hud]
    | some st' =>
      have hdisp : tx ∈ st'.history.disputed_txs := by
        rw [update_dispute_eq] at hud
        split at hud
        · exact absurd hud (by simp)
        · split at hud
          · rename_i c' inner a' heq
            have hin : inner = tx := hyp c' inner a' heq
            rw [Option.some.injEq] at hud
            subst hud
            dsimp only
            rw [hin]
            exact setUpdate_mem _ tx
          · exact absurd hud (by simp)
      unfold apply_dispute
      rw [hud]
      simp only [Option.getD_some]
      rw [hnoop st' hdisp]
      rfl
  refine ⟨hnoop s, ?_⟩
  intro hyp n hn
  induction n with
  | zero => exact absurd hn (by simp)
  | succ k ihk =>
    rw [Function.iterate_succ_apply']
    by_cases hk : 1 ≤ k
    · rw [ihk hk]
      exact hkey s hyp
    · have hk0 : k = 0 := by omega
      subst hk0
      rfl

/-- Witness for the amended C8: on a consistent concrete state, disputing
twice equals disputing once. -/
theorem c8_witness :
    Nat.iterate (fun st => apply_dispute st 1) 2
      { available := 10, held := 0, total := 10, is_locked := false
        history := { account_activity := [(1, AccountActivity.deposit 0 1 5)]
                     disputed_txs := [], rejected_txs := [] } } =
    apply_dispute
      { available := 10, held := 0, total := 10, is_locked := false
        history := { account_activity := [(1, AccountActivity.deposit 0 1 5)]
                     disputed_txs := [], rejected_txs := [] } } 1 :=
  (c8_dispute_idempotence _ 1).2
    (by
      intro c t' a h
      simp [mapGet] at h
      exact h.2.1.symm)
    2 (by decide)

/-- Counterexample to C6 as stated: it is not the case that every client
appearing in a transaction of the sequence has a row in the final ledger.
Witness input: the single transaction `Dispute(0, 0)` from the empty ledger —
client 0 appears, the dispute is ignored (no recorded activity), and
`resolve_transaction` returns the ledger untouched, so the final ledger has
no rows at all. -/
theorem c6_counterexample :
    ¬ (∀ (txs : List Transaction) (L : Ledger), create_ledger txs = some L →
        ∀ tr ∈ txs, ∃ row ∈ L.rows, row.id = transaction_client tr) := by
  intro hclaim
  have h := hclaim [Transaction.dispute (DisputeManagement.dispute 0 0)]
    (Ledger.mk []) (by decide) _ (List.mem_cons_self _ _)
  obtain ⟨row, hrow, _⟩ := h
  exact absurd hrow (List.not_mem_nil row)

/-- C6, amended: the final ledger built from the empty ledger has exactly
one row per client that appears in at least one deposit or withdrawal
transaction of the sequence, and no other rows.  (A client addressed only by
dispute/resolve/chargeback transactions gets no row: those rules are ignored
for a client with no recorded activity, and the ignored branch returns the
ledger without inserting the default state.) -/
theorem c6_ledger_rows (txs : List Transaction) (L : Ledger)
    (h : create_ledger txs = some L) :
    (L.rows.map ClientLedger.id).Nodup ∧
    (∀ c, c ∈ L.rows.map ClientLedger.id ↔ c ∈ activity_clients txs) := by
  unfold create_ledger create_ledger_with_init at h
  cases hm : apply_transactions txs [] with
  | none =>
    rw [hm] at h
    exact absurd h (by simp)
  | some m =>
    rw [hm] at h
    simp only [Option.map_some', Option.some.injEq] at h
    subst h
    have hrows :
        ((Ledger.mk (m.map (fun p => ClientLedger.from_state p.1 p.2))).rows.map
          ClientLedger.id) = mapKeys m := by
      dsimp only
      rw [List.map_map]
      rfl
    rw [hrows]
    obtain ⟨hnod, hiff⟩ := apply_transactions_keys txs [] m hm
    refine ⟨hnod (by simp [mapKeys]), ?_⟩
    intro c
    rw [hiff c]
    simp [mapKeys]

/-- Witness for the amended C6: one deposit for client 3 produces exactly the
row set `{3}`. -/
theorem c6_witness :
    3 ∈ (Ledger.mk [{ id := 3, available := 5, held := 0, total := 5
                      is_locked := false }]).rows.map ClientLedger.id ↔
      3 ∈ activity_clients [Transaction.activity (AccountActivity.deposit 3 1 5)] :=
  (c6_ledger_rows [Transaction.activity (AccountActivity.deposit 3 1 5)]
    (Ledger.mk [{ id := 3, available := 5, held := 0, total := 5
                  is_locked := false }]) (by decide)).2 3

end ToyPayments
